import Mathlib

/-!
# Lenguaje-Go: the Go teaching programs, embedded in Lean

Each Go source file gets a namespace of its own and keeps the names of its
functions (`main`, `worker`, `add`).  Sequential programs are pure functions
that return what they write to standard output, one list element per call of
a `fmt` printing function.  Programs with goroutines are step functions on an
explicit program state, one step per goroutine and atomic action, run under an
arbitrary schedule.
-/

/-! ## Go basics shared by the programs -/

/-- Smallest value of Go's `int` on a 64-bit target. -/
def minInt : Int := -(2 ^ 63)

/-- Largest value of Go's `int` on a 64-bit target. -/
def maxInt : Int := 2 ^ 63 - 1

/-- The values an `int` variable can hold. -/
def isInt (x : Int) : Prop := minInt ≤ x ∧ x ≤ maxInt

instance (x : Int) : Decidable (isInt x) := by
  unfold isInt
  infer_instance

/-- Two's complement wrap-around of a mathematical integer into `int`. -/
def wrapInt (x : Int) : Int := (x + 2 ^ 63) % 2 ^ 64 - 2 ^ 63

/-- An operand of `fmt.Print`, `fmt.Println`: the programs print strings and ints only. -/
inductive Arg where
  | str (s : String)
  | int (n : Int)
deriving DecidableEq, Repr

/-- Default (`%v`) formatting of an operand. -/
def Arg.format : Arg → String
  | .str s => s
  | .int n => toString n

/-- Whether the operand is a string (matters for the spacing rule of `fmt.Print`). -/
def Arg.isStr : Arg → Bool
  | .str _ => true
  | .int _ => false

/-- What `fmt.Println(args...)` writes: operands separated by one blank, then a newline. -/
def sprintln (args : List Arg) : String :=
  " ".intercalate (args.map Arg.format) ++ "\n"

/-- What `fmt.Print(args...)` writes: a blank goes between two operands when neither is a string. -/
def sprint : List Arg → String
  | [] => ""
  | [a] => a.format
  | a :: b :: rest =>
    a.format ++ (if !a.isStr && !b.isStr then " " else "") ++ sprint (b :: rest)

/-- The activation record of a running function, as far as `defer` is concerned: what has been
written so far, and the deferred calls, the most recently deferred first.  A deferred call has
its function value and arguments already evaluated; what is left of it is its effect on the
output. -/
structure Frame where
  out : List String
  deferred : List (List String → List String)

/-- A fresh frame. -/
def Frame.new : Frame := ⟨[], []⟩

/-- One write to standard output. -/
def Frame.write (fr : Frame) (s : String) : Frame :=
  { fr with out := fr.out ++ [s] }

/-- The `defer` statement: pushes the call on the frame's stack of deferred calls. -/
def Frame.defer (fr : Frame) (call : List String → List String) : Frame :=
  { fr with deferred := call :: fr.deferred }

/-- Function return: the deferred calls run last-in-first-out; the result is the output. -/
def Frame.ret (fr : Frame) : List String :=
  fr.deferred.foldl (fun out call => call out) fr.out

/-! ## `intermediate/generics/main.go`, `tests/variables/add_test.go`, `calculator/main.go` -/

namespace Generics

/-- The function `func add(a int, b int) int { return a + b }`: Go's `+` on `int` wraps
around. -/
def add (a b : Int) : Int := wrapInt (a + b)

end Generics

namespace AddTest

/-- The test `TestAdd`, with the function under test passed in (the package's `Add` is not among the
sources).  The result is the list of `t.Errorf` messages: the test passes when it is empty. -/
def TestAdd (Add : Int → Int → Int) : List String :=
  let got := Add 12 13
  let want : Int := 25
  if got ≠ want then ["Got: " ++ toString got ++ ", Want: " ++ toString want] else []

end AddTest

namespace Calculator

/-- The calculator's `main`, with `arithmetic.Add` passed in (the package `pkg/arithmetic` is not
among the sources). -/
def main (Add : Int → Int → Int) : List String :=
  let fr := Frame.new.write (sprintln [.str "Calculator"])
  let a : Int := 12
  let b : Int := 12
  let sum := Add a b
  let fr := fr.write
    ("Addition: " ++ toString a ++ " + " ++ toString b ++ " = " ++ toString sum ++ "\n")
  fr.ret

end Calculator

/-! ## `intermediate/defer/examples/ex.go` -/

namespace DeferEx

/-- The function literal `func(n int) { fmt.Print(n, " ") }` applied to an evaluated argument. -/
def closure (n : Int) : List String → List String :=
  fun out => out ++ [sprint [.int n, .str " "]]

/-- The loop `for i := 0; i < 5; i++ { defer func(n int) {...}(i * 2) }` from the state in which
the loop variable is `i`. -/
def loop (i : Int) (fr : Frame) : Frame :=
  if i < 5 then loop (i + 1) (fr.defer (closure (wrapInt (i * 2)))) else fr
termination_by (5 - i).toNat
decreasing_by omega

/-- The program: what `main` writes to standard output. -/
def main : List String :=
  (loop 0 Frame.new).ret

end DeferEx

/-! ## `intermediate/defer/examples/loop.go` -/

namespace DeferLoop

/-- The loop `for i := 0; i <= 10; i++ { defer fmt.Println(i) }` from the state in which the loop
variable is `i`.  The argument of the deferred `fmt.Println` is evaluated by the `defer`. -/
def loop (i : Int) (fr : Frame) : Frame :=
  if i ≤ 10 then loop (i + 1) (fr.defer (fun out => out ++ [sprintln [.int i]])) else fr
termination_by (11 - i).toNat
decreasing_by omega

/-- The program: what `main` writes to standard output. -/
def main : List String :=
  let fr := Frame.new.write (sprintln [.str "Defer bucles de programación"])
  let fr := loop 0 fr
  let fr := fr.write (sprintln [.str "Loop finished - now returning from main()"])
  fr.ret

end DeferLoop

/-! ## `Go_Foundations/projects/journal.go` -/

namespace Journal

/-- The state of `main`: the tokens still to be read from standard input, the output so far, and
the variables `score` and `answer`. -/
structure St where
  stdin : List String
  out : List String
  score : Int
  answer : String

/-- One `fmt.Println` of a single string. -/
def St.println (s : St) (line : String) : St :=
  { s with out := s.out ++ [sprintln [.str line]] }

/-- The call `fmt.Scan(&answer)`: stores the next blank-separated token; at end of input the call
fails, its error is dropped, and `answer` keeps its value. -/
def St.scan (s : St) : St :=
  match s.stdin with
  | [] => s
  | tok :: rest => { s with stdin := rest, answer := tok }

/-- One of the four blocks of `main`: prompt, scan, and the `if answer == "yes"` statement. -/
def question (prompt good bad : String) (s : St) : St :=
  let s := s.println prompt
  let s := s.scan
  if s.answer = "yes" then
    { s.println good with score := wrapInt (s.score + 1) }
  else
    s.println bad

/-- The state of `main` after the block on meditation. -/
def afterMeditation (stdin : List String) : St :=
  let s : St := ⟨stdin, [], 0, ""⟩
  let s := s.println "Let us rate your day."
  question "You did meditation: " "That is good you did meditation."
    "Make sure you do meditation, next time points will be deducated" s

/-- The state of `main` after the block on exercise. -/
def afterExercise (stdin : List String) : St :=
  question "You did exercise: " "That is good you did exercose."
    "Make sure you do exercise, next time points will be deducated" (afterMeditation stdin)

/-- The state of `main` after the block on learning. -/
def afterLearning (stdin : List String) : St :=
  question "You learned something today: " "That is good, never stop learning."
    "Don't procrastinate make sure you learn bro" (afterExercise stdin)

/-- The state of `main` after the block on the evaluation of the day. -/
def afterEvaluation (stdin : List String) : St :=
  question "You did day evaluation: " "Evaluation measures your progress."
    "You need to evaluate your day to know where you are, right" (afterLearning stdin)

/-- The variable `results := score * 25`. -/
def results (stdin : List String) : Int :=
  wrapInt ((afterEvaluation stdin).score * 25)

/-- The program: what `main` writes to standard output for the given tokens on standard input. -/
def main (stdin : List String) : List String :=
  (afterEvaluation stdin).out ++ [sprintln [.str "You scored: ", .int (results stdin)]]

end Journal

/-! ## `intermediate/concurrency/select.go` -/

namespace Select

/-- A buffered channel of ints: its capacity and the items buffered, the oldest first. -/
structure Chan where
  cap : Nat
  buf : List Int
deriving DecidableEq, Repr

/-- The call `make(chan int, cap)`. -/
def make (cap : Nat) : Chan := ⟨cap, []⟩

/-- A send with no receiver waiting: it proceeds when the buffer is below capacity and appends
the item; otherwise (`none`) the sender blocks. -/
def Chan.send (c : Chan) (v : Int) : Option Chan :=
  if c.buf.length < c.cap then some { c with buf := c.buf ++ [v] } else none

/-- A receive with no sender waiting: it proceeds when the buffer is not empty and takes the
oldest item; otherwise (`none`) the receiver blocks. -/
def Chan.recv (c : Chan) : Option (Int × Chan) :=
  match c.buf with
  | [] => none
  | v :: rest => some (v, { c with buf := rest })

/-- The branches of the `select` statement of `main`. -/
inductive Branch where
  | case1
  | case2
  | dflt
deriving DecidableEq, Repr

/-- The state of `main`: the channel `test1`, the output, and, once the `select` statement has
run, the branch it took and the value of that branch's `msg`. -/
structure St where
  test1 : Chan
  out : List String
  taken : Option Branch
  msg : Option Int
deriving DecidableEq, Repr

/-- The statements of `main` from line 12 on. -/
inductive Stmt where
  | send (v : Int)
  | sel
  | printChan
deriving DecidableEq, Repr

/-- The `select` statement.  Its two communication cases both receive from `test1`.  The cases
that can proceed are collected in source order; when there is none the `default` branch runs; when
there are some, one of them is picked by `choice` (Go picks by a uniform pseudo-random draw). -/
def selectStmt (choice : Nat) (s : St) : St :=
  let comms := [(Branch.case1, s.test1), (Branch.case2, s.test1)]
  let ready := comms.filterMap (fun bc => (bc.2.recv).map (fun vc => (bc.1, vc.1, vc.2)))
  match ready with
  | [] =>
    { s with taken := some Branch.dflt,
             out := s.out ++ [sprintln [.str "This is the default one :) "]] }
  | first :: others =>
    let pick := (first :: others).getD (choice % (others.length + 1)) first
    let line :=
      match pick.1 with
      | Branch.case1 => sprintln [.str "Receibeid from channel 1", .int pick.2.1]
      | _ => sprintln [.str "Received from channel 2: ", .int pick.2.1]
    { test1 := pick.2.2, out := s.out ++ [line], taken := some pick.1, msg := some pick.2.1 }

/-- One statement of `main`, which is the only goroutine: a statement that blocks deadlocks the
program (`none`).  `addr` is the address `fmt.Println(test1)` prints for the channel. -/
def exec (choice : Nat) (addr : String) : Stmt → St → Option St
  | .send v, s => (s.test1.send v).map (fun c => { s with test1 := c })
  | .sel, s => some (selectStmt choice s)
  | .printChan, s => some { s with out := s.out ++ [sprintln [.str addr]] }

/-- The state of `main` after line 10: the greeting is printed and `test1` is made. -/
def init : St :=
  { test1 := make 4, out := [sprint [.str "Hello select concurrency \n"]],
    taken := none, msg := none }

/-- Lines 12 to 26 of `main`. -/
def prog : List Stmt :=
  [.send 1, .send 2, .send 2, .send 3, .sel, .printChan]

/-- Runs the statements in order; `none` when one of them blocks. -/
def run (choice : Nat) (addr : String) : List Stmt → St → Option St
  | [], s => some s
  | st :: rest, s =>
    match exec choice addr st s with
    | none => none
    | some t => run choice addr rest t

/-- The states the statements go through, the starting state first; the list ends at the state
in which a statement blocks. -/
def trace (choice : Nat) (addr : String) : List Stmt → St → List St
  | [], s => [s]
  | st :: rest, s =>
    s :: match exec choice addr st s with
         | none => []
         | some t => trace choice addr rest t

/-- The program: the final state of `main`, or `none` when it deadlocks. -/
def main (choice : Nat) (addr : String) : Option St :=
  run choice addr prog init

end Select

/-! ## `intermediate/concurrency/4.go` -/

namespace Four

/-- The two goroutines of the program. -/
inductive Tid where
  | main
  | worker
deriving DecidableEq, Repr

/-- Where `main` stands: before `make`, before the `go` statement, before the receive, blocked in
the receive, holding `msg` before `fmt.Println`, returned (the program has exited). -/
inductive MainPc where
  | start
  | made
  | atRecv
  | parked
  | gotMsg
  | exited
deriving DecidableEq, Repr

/-- Where `worker` stands: not yet spawned, before the send, blocked in the send, past the send,
returned. -/
inductive WorkerPc where
  | notStarted
  | atSend
  | parked
  | sent
  | returned
deriving DecidableEq, Repr

/-- An unbuffered channel of strings: the values offered by the senders blocked on it, the oldest
first, and the number of receivers blocked on it. -/
structure Chan where
  sendq : List String
  recvq : Nat
deriving DecidableEq, Repr

/-- The program state: the channel `ch`, both program counters, `main`'s variable `msg` (unset
before the receive completes) and the output. -/
structure St where
  ch : Chan
  mainPc : MainPc
  workerPc : WorkerPc
  msg : Option String
  out : List String
deriving DecidableEq, Repr

/-- The state in which the program starts. -/
def init : St :=
  { ch := ⟨[], 0⟩, mainPc := .start, workerPc := .notStarted, msg := none, out := [] }

/-- The next atomic action of `worker`: the send `ch <- "done"`, then the return.  The send hands
the value to a blocked receiver when there is one (only `main` receives), and otherwise blocks
the worker on the channel.  `none`: the goroutine cannot run (not spawned, blocked, returned, or
the program has exited). -/
def worker (s : St) : Option St :=
  if s.mainPc = .exited then none
  else
    match s.workerPc with
    | .notStarted => none
    | .atSend =>
      if 0 < s.ch.recvq then
        some { s with ch := { s.ch with recvq := s.ch.recvq - 1 }, msg := some "done",
                      mainPc := .gotMsg, workerPc := .sent }
      else
        some { s with ch := { s.ch with sendq := s.ch.sendq ++ ["done"] }, workerPc := .parked }
    | .parked => none
    | .sent => some { s with workerPc := .returned }
    | .returned => none

/-- The next atomic action of `main`: `make`, `go worker(ch)`, the receive `msg := <-ch`,
`fmt.Println(msg)` followed by the return.  The receive takes the value of a blocked sender when
there is one (only `worker` sends) and lets it go on, and otherwise blocks `main` on the channel. -/
def main (s : St) : Option St :=
  match s.mainPc with
  | .start => some { s with ch := ⟨[], 0⟩, mainPc := .made }
  | .made => some { s with workerPc := .atSend, mainPc := .atRecv }
  | .atRecv =>
    match s.ch.sendq with
    | v :: rest =>
      some { s with ch := { s.ch with sendq := rest }, msg := some v,
                    workerPc := .sent, mainPc := .gotMsg }
    | [] => some { s with ch := { s.ch with recvq := s.ch.recvq + 1 }, mainPc := .parked }
  | .parked => none
  | .gotMsg =>
    some { s with out := s.out ++ [sprintln [.str (s.msg.getD "")]], mainPc := .exited }
  | .exited => none

/-- One step of the goroutine the scheduler picks. -/
def step : Tid → St → Option St
  | .main, s => main s
  | .worker, s => worker s

/-- Picking a goroutine that cannot run leaves the state as it is. -/
def next (t : Tid) (s : St) : St :=
  (step t s).getD s

/-- The state a schedule (the goroutines picked, in order) leads to. -/
def run : List Tid → St → St
  | [], s => s
  | t :: rest, s => run rest (next t s)

/-- Upper bound on the number of steps the program can still take. -/
def fuel (s : St) : Nat :=
  (match s.mainPc with
    | .start => 7
    | .made => 6
    | .atRecv => 5
    | .parked => 4
    | .gotMsg => 3
    | .exited => 0) +
  (match s.workerPc with
    | .notStarted => 3
    | .atSend => 3
    | .parked => 2
    | .sent => 1
    | .returned => 0)

/-- Every state the program can be in: the start state and what up to seven picks lead to. -/
def reachable : List St :=
  let grow := fun (l : List St) => (l ++ l.map (next .main) ++ l.map (next .worker)).dedup
  grow (grow (grow (grow (grow (grow (grow [init]))))))

end Four

/-! ## `intermediate/concurrency/syncwaitgroup.go` -/

namespace SyncWaitGroup

/-- The three worker goroutines, in the order `main` starts them. -/
inductive Wid where
  | w1
  | w2
  | w3
deriving DecidableEq, Repr

/-- The argument `id` the worker is started with. -/
def Wid.id : Wid → Int
  | .w1 => 1
  | .w2 => 2
  | .w3 => 3

/-- The goroutines of the program. -/
inductive Tid where
  | main
  | worker (w : Wid)
deriving DecidableEq, Repr

/-- Where `main` stands: before `wg.Add(3)`, before each of the three `go` statements, at
`wg.Wait()`, past `wg.Wait()` and before the last `fmt.Println`, returned (the program has
exited). -/
inductive MainPc where
  | start
  | added
  | spawned1
  | spawned2
  | atWait
  | waited
  | exited
deriving DecidableEq, Repr

/-- Where a worker stands: not yet spawned, at its first statement `defer wg.Done()`, before
`fmt.Println`, before the return that runs the deferred `wg.Done()`, finished. -/
inductive WorkerPc where
  | notStarted
  | entry
  | deferred
  | printed
  | finished
deriving DecidableEq, Repr

/-- The program state: the counter of the wait group `wg`, whether the program has panicked, the
program counters of `main` and of the three workers, and the output. -/
structure St where
  counter : Int
  panicked : Bool
  mainPc : MainPc
  pc1 : WorkerPc
  pc2 : WorkerPc
  pc3 : WorkerPc
  out : List String
deriving DecidableEq, Repr

/-- The state in which the program starts: `var wg sync.WaitGroup` is the zero wait group. -/
def init : St :=
  { counter := 0, panicked := false, mainPc := .start,
    pc1 := .notStarted, pc2 := .notStarted, pc3 := .notStarted, out := [] }

/-- The program counter of a worker. -/
def St.pc (s : St) : Wid → WorkerPc
  | .w1 => s.pc1
  | .w2 => s.pc2
  | .w3 => s.pc3

/-- Moves the program counter of a worker. -/
def St.setPc (s : St) (w : Wid) (p : WorkerPc) : St :=
  match w with
  | .w1 => { s with pc1 := p }
  | .w2 => { s with pc2 := p }
  | .w3 => { s with pc3 := p }

/-- The call `wg.Add(delta)`; `wg.Done()` is `wg.Add(-1)`.  A counter that would go negative
panics. -/
def St.wgAdd (s : St) (delta : Int) : St :=
  if s.counter + delta < 0 then { s with panicked := true }
  else { s with counter := s.counter + delta }

/-- The line a worker prints. -/
def workerLine (w : Wid) : String :=
  sprintln [.str "Worker", .int w.id, .str "is working"]

/-- The line `main` prints last. -/
def finishedLine : String :=
  sprintln [.str "All workers finished"]

/-- The next atomic action of the worker `w`: `defer wg.Done()`, `fmt.Println(...)`, the return,
which runs the deferred `wg.Done()`.  `none`: the goroutine cannot run (not spawned, finished, or
the program has exited or panicked). -/
def worker (w : Wid) (s : St) : Option St :=
  if s.mainPc = .exited ∨ s.panicked then none
  else
    match s.pc w with
    | .notStarted => none
    | .entry => some (s.setPc w .deferred)
    | .deferred => some ({ s with out := s.out ++ [workerLine w] }.setPc w .printed)
    | .printed => some ((s.wgAdd (-1)).setPc w .finished)
    | .finished => none

/-- The next atomic action of `main`: `wg.Add(3)`, the three `go` statements, `wg.Wait()`, which
can go on only when the counter is zero, then `fmt.Println(...)` and the return. -/
def main (s : St) : Option St :=
  if s.panicked then none
  else
    match s.mainPc with
    | .start => some { s.wgAdd 3 with mainPc := .added }
    | .added => some { s.setPc .w1 .entry with mainPc := .spawned1 }
    | .spawned1 => some { s.setPc .w2 .entry with mainPc := .spawned2 }
    | .spawned2 => some { s.setPc .w3 .entry with mainPc := .atWait }
    | .atWait => if s.counter = 0 then some { s with mainPc := .waited } else none
    | .waited => some { s with out := s.out ++ [finishedLine], mainPc := .exited }
    | .exited => none

/-- One step of the goroutine the scheduler picks. -/
def step : Tid → St → Option St
  | .main, s => main s
  | .worker w, s => worker w s

/-- Picking a goroutine that cannot run leaves the state as it is. -/
def next (t : Tid) (s : St) : St :=
  (step t s).getD s

/-- The state a schedule (the goroutines picked, in order) leads to. -/
def run : List Tid → St → St
  | [], s => s
  | t :: rest, s => run rest (next t s)

/-- Whether the worker has called `wg.Done()`. -/
def St.done (s : St) (w : Wid) : Bool :=
  s.pc w = .finished

/-- Whether the worker has printed its line. -/
def St.hasPrinted (s : St) (w : Wid) : Bool :=
  s.pc w = .printed ∨ s.pc w = .finished

/-- The number of workers that have called `wg.Done()`. -/
def St.doneCount (s : St) : Int :=
  (if s.done .w1 then 1 else 0) + (if s.done .w2 then 1 else 0) + (if s.done .w3 then 1 else 0)

/-- The lines of the workers that have printed, in the order of the ids. -/
def St.printedLines (s : St) : List String :=
  (if s.hasPrinted .w1 then [workerLine .w1] else []) ++
  ((if s.hasPrinted .w2 then [workerLine .w2] else []) ++
   (if s.hasPrinted .w3 then [workerLine .w3] else []))

end SyncWaitGroup

/-! ## Invariants and measures used in the proofs -/

namespace Four

/-- What holds in every state of the hand-off program, as a decidable property. -/
def good (s : St) : Prop :=
  (s.out = [] ∨ s.out = ["done\n"]) ∧
  (s.msg = none ∨ s.msg = some "done") ∧
  (s.mainPc = .exited →
    s.out = ["done\n"] ∧ s.msg = some "done" ∧
      (s.workerPc = .sent ∨ s.workerPc = .returned)) ∧
  (s.mainPc ≠ .exited → (step .main s).isSome ∨ (step .worker s).isSome) ∧
  (∀ t ∈ [Tid.main, Tid.worker],
    (step t s).all (fun u => decide (fuel u < fuel s)) = true)

instance (s : St) : Decidable (good s) := by
  unfold good
  infer_instance

end Four

namespace SyncWaitGroup

/-- How far `main` has got, as a number. -/
def MainPc.rank : MainPc → Nat
  | .start => 0
  | .added => 1
  | .spawned1 => 2
  | .spawned2 => 3
  | .atWait => 4
  | .waited => 5
  | .exited => 6

/-- The invariant on counter and program counters: no panic; the counter is what `wg.Add(3)` put
in minus one for each worker that has called `wg.Done()`; a worker is spawned exactly when `main`
is past its `go` statement; and `main` is past `wg.Wait()` only when all workers have finished. -/
def CInv (s : St) : Prop :=
  s.panicked = false ∧
  s.counter = (if s.mainPc = .start then 0 else 3) - s.doneCount ∧
  (s.pc1 ≠ .notStarted ↔ 2 ≤ s.mainPc.rank) ∧
  (s.pc2 ≠ .notStarted ↔ 3 ≤ s.mainPc.rank) ∧
  (s.pc3 ≠ .notStarted ↔ 4 ≤ s.mainPc.rank) ∧
  (5 ≤ s.mainPc.rank → s.pc1 = .finished ∧ s.pc2 = .finished ∧ s.pc3 = .finished)

/-- The invariant on the output: it is the lines of the workers that have printed, in some order,
followed by the last line of `main` once `main` has returned. -/
def OInv (s : St) : Prop :=
  ∃ pre : List String, pre.Perm s.printedLines ∧
    s.out = pre ++ (if s.mainPc = .exited then [finishedLine] else [])

/-- One schedule that runs the program to its end: worker 3 prints first, then worker 1, then
worker 2. -/
def sampleSchedule : List Tid :=
  [.main, .main, .worker .w1, .main, .main, .worker .w3, .worker .w3, .worker .w1,
   .worker .w2, .worker .w2, .worker .w3, .worker .w1, .worker .w2, .main, .main]

/-- The number of steps a worker can still take (the `go` statement that spawns it is a step of
`main`). -/
def WorkerPc.left : WorkerPc → Nat
  | .notStarted => 3
  | .entry => 3
  | .deferred => 2
  | .printed => 1
  | .finished => 0

/-- Upper bound on the number of steps the program can still take. -/
def fuel (s : St) : Nat :=
  (6 - s.mainPc.rank) + s.pc1.left + s.pc2.left + s.pc3.left

end SyncWaitGroup

/-! ## Theorems -/

/-! ### Addition -/

theorem wrapInt_of_isInt (x : Int) (h : isInt x) : wrapInt x = x := by
  unfold isInt minInt maxInt at h
  unfold wrapInt
  omega

theorem wrapInt_isInt (x : Int) : isInt (wrapInt x) := by
  unfold isInt minInt maxInt wrapInt
  omega

/-- C7, as stated, fails: for the ints `a = 9223372036854775807` and `b = 1` the function `add`
returns `-9223372036854775808`, which is not `a + b`. -/
theorem add_overflow_counterexample :
    isInt 9223372036854775807 ∧ isInt 1 ∧
    Generics.add 9223372036854775807 1 = -9223372036854775808 ∧
    Generics.add 9223372036854775807 1 ≠ 9223372036854775807 + 1 := by
  refine ⟨by decide, by decide, by decide, by decide⟩

/-- C7, amended: for ints `a` and `b` the function `add` returns an int that is `a + b` whenever
`a + b` is itself an int, and is `a + b` less or plus `2 ^ 64` otherwise; with it
as `Add`, `TestAdd` reports no error (`Add(12, 13)` is `25`), and with it as `arithmetic.Add` the
calculator prints the sum `24` for `12` and `12`. -/
theorem add_returns_sum_in_range (a b : Int) (ha : isInt a) (hb : isInt b) :
    isInt (Generics.add a b) ∧
    (isInt (a + b) → Generics.add a b = a + b) ∧
    (Generics.add a b = a + b ∨ Generics.add a b = a + b - 2 ^ 64 ∨
      Generics.add a b = a + b + 2 ^ 64) ∧
    Generics.add 12 13 = 25 ∧
    AddTest.TestAdd Generics.add = [] ∧
    Calculator.main Generics.add = ["Calculator\n", "Addition: 12 + 12 = 24\n"] := by
  refine ⟨wrapInt_isInt _, wrapInt_of_isInt _, ?_, by decide, by decide, by decide⟩
  unfold isInt minInt maxInt at ha hb
  unfold Generics.add wrapInt
  omega

theorem add_returns_sum_in_range_witness :
    (isInt 12 ∧ isInt 13) ∧
    (isInt (Generics.add 12 13) ∧
    (isInt (12 + 13) → Generics.add 12 13 = 12 + 13) ∧
    (Generics.add 12 13 = 12 + 13 ∨ Generics.add 12 13 = 12 + 13 - 2 ^ 64 ∨
      Generics.add 12 13 = 12 + 13 + 2 ^ 64) ∧
    Generics.add 12 13 = 25 ∧
    AddTest.TestAdd Generics.add = [] ∧
    Calculator.main Generics.add = ["Calculator\n", "Addition: 12 + 12 = 24\n"]) :=
  ⟨by decide, add_returns_sum_in_range 12 13 (by decide) (by decide)⟩

/-! ### `defer` -/

/-- C5: the program of `ex.go` writes `8 6 4 2 0 `, the doubled loop values in the reverse of the
order in which they were deferred; it does not write the values 5, 4, 3, 2, 1 that the comment
under `main` announces. -/
theorem deferEx_main_output :
    DeferEx.main = ["8 ", "6 ", "4 ", "2 ", "0 "] ∧
    String.join DeferEx.main = "8 6 4 2 0 " ∧
    DeferEx.main ≠ [5, 4, 3, 2, 1].map (fun n => sprint [.int n, .str " "]) := by
  have h : DeferEx.main = ["8 ", "6 ", "4 ", "2 ", "0 "] := by
    simp [DeferEx.main, DeferEx.loop, DeferEx.closure, Frame.new, Frame.defer, Frame.ret]
    decide
  rw [h]
  decide

/-- C6: the program of `loop.go` writes its heading, then the line "Loop finished - now returning
from main()", and then the eleven lines 10, 9, ..., 0: the values the loop variable had at the
eleven `defer` statements (0, 1, ..., 10 in the order of the loop), in reverse. -/
theorem deferLoop_main_output :
    DeferLoop.main =
      ["Defer bucles de programación\n", "Loop finished - now returning from main()\n"] ++
        ((List.range 11).reverse.map (fun i => sprintln [.int (i : Int)])) ∧
    DeferLoop.main.drop 2 =
      ["10\n", "9\n", "8\n", "7\n", "6\n", "5\n", "4\n", "3\n", "2\n", "1\n", "0\n"] ∧
    (DeferLoop.loop 0 Frame.new).deferred.length = 11 := by
  have h : DeferLoop.main =
      ["Defer bucles de programación\n", "Loop finished - now returning from main()\n",
       "10\n", "9\n", "8\n", "7\n", "6\n", "5\n", "4\n", "3\n", "2\n", "1\n", "0\n"] := by
    simp [DeferLoop.main, DeferLoop.loop, Frame.new, Frame.defer, Frame.ret, Frame.write]
    decide
  have h2 : (DeferLoop.loop 0 Frame.new).deferred.length = 11 := by
    simp [DeferLoop.loop, Frame.new, Frame.defer]
  rw [h]
  exact ⟨by decide, by decide, h2⟩

/-! ### The journal -/

theorem count_yes (a1 a2 a3 a4 : String) :
    ((List.count "yes" [a1, a2, a3, a4] : Nat) : Int) =
      (if a1 = "yes" then 1 else 0) + (if a2 = "yes" then 1 else 0) +
        (if a3 = "yes" then 1 else 0) + (if a4 = "yes" then 1 else 0) := by
  simp only [List.count_cons, List.count_nil, beq_iff_eq]
  push_cast
  ring

/-- C9: when four answers `a1`, `a2`, `a3`, `a4` are read (whatever follows them on the input),
the score printed is 25 times the number of answers equal to "yes"; it is one of 0, 25, 50, 75,
100; it is 100 exactly when all four are "yes"; and the score never goes down from block to block:
an answer that is not "yes" leaves it as it was. -/
theorem journal_score (a1 a2 a3 a4 : String) (rest : List String) :
    Journal.results (a1 :: a2 :: a3 :: a4 :: rest) = 25 * (List.count "yes" [a1, a2, a3, a4]) ∧
    (Journal.main (a1 :: a2 :: a3 :: a4 :: rest)).getLast? =
      some (sprintln [.str "You scored: ",
        .int (25 * (List.count "yes" [a1, a2, a3, a4]))]) ∧
    Journal.results (a1 :: a2 :: a3 :: a4 :: rest) ∈ [(0 : Int), 25, 50, 75, 100] ∧
    (Journal.results (a1 :: a2 :: a3 :: a4 :: rest) = 100 ↔
      a1 = "yes" ∧ a2 = "yes" ∧ a3 = "yes" ∧ a4 = "yes") ∧
    (Journal.afterMeditation (a1 :: a2 :: a3 :: a4 :: rest)).score =
      0 + (if a1 = "yes" then 1 else 0) ∧
    (Journal.afterExercise (a1 :: a2 :: a3 :: a4 :: rest)).score =
      (Journal.afterMeditation (a1 :: a2 :: a3 :: a4 :: rest)).score +
        (if a2 = "yes" then 1 else 0) ∧
    (Journal.afterLearning (a1 :: a2 :: a3 :: a4 :: rest)).score =
      (Journal.afterExercise (a1 :: a2 :: a3 :: a4 :: rest)).score +
        (if a3 = "yes" then 1 else 0) ∧
    (Journal.afterEvaluation (a1 :: a2 :: a3 :: a4 :: rest)).score =
      (Journal.afterLearning (a1 :: a2 :: a3 :: a4 :: rest)).score +
        (if a4 = "yes" then 1 else 0) := by
  have w0 : wrapInt 0 = 0 := by decide
  have w1 : wrapInt 1 = 1 := by decide
  have w2 : wrapInt 2 = 2 := by decide
  have w3 : wrapInt 3 = 3 := by decide
  have w4 : wrapInt 4 = 4 := by decide
  have w25 : wrapInt 25 = 25 := by decide
  have w50 : wrapInt 50 = 50 := by decide
  have w75 : wrapInt 75 = 75 := by decide
  have w100 : wrapInt 100 = 100 := by decide
  rw [count_yes]
  by_cases h1 : a1 = "yes" <;> by_cases h2 : a2 = "yes" <;>
    by_cases h3 : a3 = "yes" <;> by_cases h4 : a4 = "yes" <;>
    simp [Journal.main, Journal.results, Journal.afterEvaluation, Journal.afterLearning,
      Journal.afterExercise, Journal.afterMeditation, Journal.question, Journal.St.scan,
      Journal.St.println, h1, h2, h3, h4, w0, w1, w2, w3, w4, w25, w50, w75, w100]

/-! ### `select` on a buffered channel -/

theorem select_run_sends (choice : Nat) (addr : String) :
    Select.run choice addr (Select.prog.take 4) Select.init =
      some { Select.init with test1 := ⟨4, [1, 2, 2, 3]⟩ } := by
  simp [Select.run, Select.prog, Select.exec, Select.Chan.send, Select.init, Select.make]

theorem select_taken (choice : Nat) (s : Select.St) (v : Int) (rest : List Int)
    (h : s.test1.buf = v :: rest) :
    ((Select.selectStmt choice s).taken = some Select.Branch.case1 ∨
      (Select.selectStmt choice s).taken = some Select.Branch.case2) ∧
    (Select.selectStmt choice s).msg = some v ∧
    (Select.selectStmt choice s).test1 = ⟨s.test1.cap, rest⟩ ∧
    (Select.selectStmt choice s).out.dropLast = s.out := by
  rcases Nat.mod_two_eq_zero_or_one choice with h2 | h2 <;>
    simp [Select.selectStmt, Select.Chan.recv, h, h2]

/-- C3: once 1, 2, 2, 3 have been sent on `test1`, the `select` statement takes one of its two
receive cases, never the default branch, whatever the draw; the value received is 1, the oldest
item, and the channel is left with the other three items; both cases do occur. -/
theorem select_receives_oldest (choice : Nat) (addr : String) :
    ∃ before : Select.St,
      Select.run choice addr (Select.prog.take 4) Select.init = some before ∧
      before.test1.buf = [1, 2, 2, 3] ∧
      ((Select.selectStmt choice before).taken = some Select.Branch.case1 ∨
        (Select.selectStmt choice before).taken = some Select.Branch.case2) ∧
      (Select.selectStmt choice before).taken ≠ some Select.Branch.dflt ∧
      sprintln [.str "This is the default one :) "] ∉ (Select.selectStmt choice before).out ∧
      (Select.selectStmt choice before).msg = some 1 ∧
      (Select.selectStmt choice before).test1.buf = [2, 2, 3] ∧
      (Select.selectStmt choice before).test1.buf.length + 1 = before.test1.buf.length ∧
      (Select.selectStmt 0 before).taken = some Select.Branch.case1 ∧
      (Select.selectStmt 1 before).taken = some Select.Branch.case2 ∧
      (Select.main choice addr).map (fun s => (s.taken, s.msg, s.test1.buf)) =
        some ((Select.selectStmt choice before).taken, some 1, [2, 2, 3]) := by
  refine ⟨_, select_run_sends choice addr, rfl, ?_⟩
  rcases Nat.mod_two_eq_zero_or_one choice with h2 | h2 <;>
    simp [Select.main, Select.run, Select.prog, Select.exec, Select.Chan.send, Select.init,
      Select.make, Select.selectStmt, Select.Chan.recv, h2] <;> decide

/-- C4: whatever the draw of the `select` statement, no statement of `main` blocks (the program
does not deadlock), the channel `test1` never holds more than its capacity 4, each of the four
sends starts with fewer than 4 items buffered, and from the `select` statement on the channel
holds 2, 2, 3. -/
theorem select_buffer_within_capacity (choice : Nat) (addr : String) :
    (Select.main choice addr).isSome = true ∧
    (Select.trace choice addr Select.prog Select.init).length = Select.prog.length + 1 ∧
    (∀ s ∈ Select.trace choice addr Select.prog Select.init,
      s.test1.cap = 4 ∧ s.test1.buf.length ≤ s.test1.cap) ∧
    (Select.trace choice addr Select.prog Select.init).map (fun s => s.test1.buf) =
      [[], [1], [1, 2], [1, 2, 2], [1, 2, 2, 3], [2, 2, 3], [2, 2, 3]] ∧
    (∀ s ∈ (Select.trace choice addr Select.prog Select.init).take 4,
      s.test1.buf.length < s.test1.cap) ∧
    (Select.main choice addr).map (fun s => s.test1.buf) = some [2, 2, 3] := by
  rcases Nat.mod_two_eq_zero_or_one choice with h2 | h2 <;>
    simp [Select.main, Select.run, Select.trace, Select.prog, Select.exec, Select.Chan.send,
      Select.init, Select.make, Select.selectStmt, Select.Chan.recv, h2]

/-! ### The hand-off over an unbuffered channel -/

theorem four_init_reachable : Four.init ∈ Four.reachable := by decide

theorem four_reachable_closed :
    ∀ s ∈ Four.reachable, ∀ t ∈ [Four.Tid.main, Four.Tid.worker],
      Four.next t s ∈ Four.reachable := by decide

theorem four_reachable_good : ∀ s ∈ Four.reachable, Four.good s := by decide

theorem four_run_reachable (sched : List Four.Tid) :
    ∀ s ∈ Four.reachable, Four.run sched s ∈ Four.reachable := by
  induction sched with
  | nil => intro s hs; exact hs
  | cons t rest ih =>
    intro s hs
    refine ih _ (four_reachable_closed s hs t ?_)
    cases t <;> simp

/-- C8: under every schedule of `main` and `worker`, nothing but the one line "done" is ever
written; once `main` has returned it has received "done", written it once, and the send of
`worker` has completed; as long as `main` has not returned some goroutine can take a step (no
deadlock); and every step lowers a bound on the steps left, so the program terminates. -/
theorem handoff_every_schedule (sched : List Four.Tid) :
    ((Four.run sched Four.init).out = [] ∨ (Four.run sched Four.init).out = ["done\n"]) ∧
    ((Four.run sched Four.init).mainPc = .exited →
      (Four.run sched Four.init).out = ["done\n"] ∧
      (Four.run sched Four.init).msg = some "done" ∧
      ((Four.run sched Four.init).workerPc = .sent ∨
        (Four.run sched Four.init).workerPc = .returned)) ∧
    ((Four.run sched Four.init).mainPc ≠ .exited →
      ∃ t u, Four.step t (Four.run sched Four.init) = some u) ∧
    (∀ t u, Four.step t (Four.run sched Four.init) = some u →
      Four.fuel u < Four.fuel (Four.run sched Four.init)) := by
  have hg := four_reachable_good _ (four_run_reachable sched _ four_init_reachable)
  obtain ⟨h1, -, h3, h4, h5⟩ := hg
  refine ⟨h1, h3, ?_, ?_⟩
  · intro hne
    rcases h4 hne with h | h
    · obtain ⟨u, hu⟩ := Option.isSome_iff_exists.mp h
      exact ⟨_, u, hu⟩
    · obtain ⟨u, hu⟩ := Option.isSome_iff_exists.mp h
      exact ⟨_, u, hu⟩
  · intro t u hu
    have := h5 t (by cases t <;> simp)
    rw [hu] at this
    simpa using this

theorem handoff_every_schedule_witness :
    (Four.run [.main, .main, .worker, .main, .main] Four.init).mainPc = .exited ∧
    (Four.run [.main, .main, .worker, .main, .main] Four.init).out = ["done\n"] ∧
    (Four.run [.main, .main, .worker, .main, .main] Four.init).msg = some "done" :=
  ⟨by decide,
   ((handoff_every_schedule [.main, .main, .worker, .main, .main]).2.1 (by decide)).1,
   ((handoff_every_schedule [.main, .main, .worker, .main, .main]).2.1 (by decide)).2.1⟩

/-! ### The wait group -/

namespace SyncWaitGroup

theorem cinv_init : CInv init := by
  simp [CInv, init, St.doneCount, St.done, St.pc, MainPc.rank]

theorem cinv_main (s u : St) (h : CInv s) (hu : main s = some u) : CInv u := by
  rcases s with ⟨c, p, m, p1, p2, p3, out⟩
  obtain ⟨hp, hc, h1, h2, h3, h5⟩ := h
  simp only at hp
  subst hp
  cases m <;>
    simp [main, St.wgAdd, St.setPc, St.doneCount, St.done, St.pc, MainPc.rank]
      at hu hc h1 h2 h3 h5
  case start =>
    subst h1 h2 h3
    simp at hc
    subst hc
    simp at hu
    subst hu
    simp [CInv, St.doneCount, St.done, St.pc, MainPc.rank]
  case added =>
    subst h1 h2 h3 hu
    simp at hc
    simp [CInv, St.doneCount, St.done, St.pc, MainPc.rank, hc]
  case spawned1 =>
    subst h2 h3 hu
    simp at hc
    simp [CInv, St.doneCount, St.done, St.pc, MainPc.rank, hc, h1]
  case spawned2 =>
    subst h3 hu
    simp at hc
    simp [CInv, St.doneCount, St.done, St.pc, MainPc.rank, hc, h1, h2]
  case atWait =>
    obtain ⟨hz, rfl⟩ := hu
    subst hz
    have hf : p1 = .finished ∧ p2 = .finished ∧ p3 = .finished := by
      split_ifs at hc <;> first | omega | exact ⟨‹_›, ‹_›, ‹_›⟩
    obtain ⟨rfl, rfl, rfl⟩ := hf
    simp [CInv, St.doneCount, St.done, St.pc, MainPc.rank]
  case waited =>
    obtain ⟨rfl, rfl, rfl⟩ := h5
    subst hu
    simp at hc
    simp [CInv, St.doneCount, St.done, St.pc, MainPc.rank, hc]

theorem cinv_worker (w : Wid) (s u : St) (h : CInv s) (hu : worker w s = some u) : CInv u := by
  rcases s with ⟨c, p, m, p1, p2, p3, out⟩
  obtain ⟨hp, hc, h1, h2, h3, h5⟩ := h
  simp only at hp
  subst hp
  have b1 : (0 : Int) ≤ (if p1 = .finished then 1 else 0) ∧
      (if p1 = .finished then 1 else 0) ≤ (1 : Int) := by split_ifs <;> simp
  have b2 : (0 : Int) ≤ (if p2 = .finished then 1 else 0) ∧
      (if p2 = .finished then 1 else 0) ≤ (1 : Int) := by split_ifs <;> simp
  have b3 : (0 : Int) ≤ (if p3 = .finished then 1 else 0) ∧
      (if p3 = .finished then 1 else 0) ≤ (1 : Int) := by split_ifs <;> simp
  cases w
  · cases p1 <;> cases m <;>
      simp [worker, St.wgAdd, St.setPc, St.doneCount, St.done, St.pc, MainPc.rank]
        at hu hc h1 h2 h3 h5 b1 <;>
      (try split_ifs at hu) <;> (try omega) <;> (try simp at hu) <;> (try subst hu) <;>
      simp [CInv, St.doneCount, St.done, St.pc, MainPc.rank, *]
    all_goals (split_ifs <;> omega)
  · cases p2 <;> cases m <;>
      simp [worker, St.wgAdd, St.setPc, St.doneCount, St.done, St.pc, MainPc.rank]
        at hu hc h1 h2 h3 h5 b2 <;>
      (try split_ifs at hu) <;> (try omega) <;> (try simp at hu) <;> (try subst hu) <;>
      simp [CInv, St.doneCount, St.done, St.pc, MainPc.rank, *]
    all_goals (split_ifs <;> omega)
  · cases p3 <;> cases m <;>
      simp [worker, St.wgAdd, St.setPc, St.doneCount, St.done, St.pc, MainPc.rank]
        at hu hc h1 h2 h3 h5 b3 <;>
      (try split_ifs at hu) <;> (try omega) <;> (try simp at hu) <;> (try subst hu) <;>
      simp [CInv, St.doneCount, St.done, St.pc, MainPc.rank, *]
    all_goals (split_ifs <;> omega)

theorem perm_insert (pre A B : List String) (x : String) (h : pre.Perm (A ++ B)) :
    (pre ++ [x]).Perm (A ++ x :: B) :=
  ((List.perm_append_singleton x pre).trans (h.cons x)).trans List.perm_middle.symm

theorem wgAdd_mainPc (s : St) (d : Int) : (s.wgAdd d).mainPc = s.mainPc := by
  unfold St.wgAdd; split <;> rfl

theorem wgAdd_pc1 (s : St) (d : Int) : (s.wgAdd d).pc1 = s.pc1 := by
  unfold St.wgAdd; split <;> rfl

theorem wgAdd_pc2 (s : St) (d : Int) : (s.wgAdd d).pc2 = s.pc2 := by
  unfold St.wgAdd; split <;> rfl

theorem wgAdd_pc3 (s : St) (d : Int) : (s.wgAdd d).pc3 = s.pc3 := by
  unfold St.wgAdd; split <;> rfl

theorem wgAdd_out (s : St) (d : Int) : (s.wgAdd d).out = s.out := by
  unfold St.wgAdd; split <;> rfl

theorem oinv_init : OInv init :=
  ⟨[], by simp [init, St.printedLines, St.hasPrinted, St.pc], by simp [init]⟩

theorem oinv_main (s u : St) (hc : CInv s) (h : OInv s) (hu : main s = some u) : OInv u := by
  rcases s with ⟨c, p, m, p1, p2, p3, out⟩
  obtain ⟨hp, -, h1, h2, h3, h5⟩ := hc
  obtain ⟨pre, hperm, hout⟩ := h
  simp only at hp hout
  subst hp
  cases m <;>
    simp [main, St.setPc, MainPc.rank] at hu h1 h2 h3 h5 hout <;>
    (first | subst hu | (obtain ⟨-, rfl⟩ := hu)) <;> (try subst h1) <;> (try subst h2) <;>
    (try subst h3) <;>
    exact ⟨pre, by simpa [St.printedLines, St.hasPrinted, St.pc, wgAdd_pc1, wgAdd_pc2,
      wgAdd_pc3] using hperm, by simp [hout, wgAdd_out]⟩

theorem oinv_worker (w : Wid) (s u : St) (h : OInv s) (hu : worker w s = some u) : OInv u := by
  rcases s with ⟨c, p, m, p1, p2, p3, out⟩
  obtain ⟨pre, hperm, hout⟩ := h
  simp only at hout
  cases w
  · cases p1 <;> simp [worker, St.setPc, St.pc] at hu <;> obtain ⟨⟨hm, -⟩, rfl⟩ := hu <;>
      simp [hm] at hout <;> subst hout
    · exact ⟨out, by simpa [St.printedLines, St.hasPrinted, St.pc] using hperm, by simp [hm]⟩
    · refine ⟨out ++ [workerLine .w1], ?_, by simp [hm]⟩
      simp only [St.printedLines, St.hasPrinted, St.pc] at hperm ⊢
      simp at hperm ⊢
      exact perm_insert _ [] _ _ hperm
    · exact ⟨out, by simpa [St.printedLines, St.hasPrinted, St.pc, wgAdd_pc1, wgAdd_pc2,
        wgAdd_pc3] using hperm, by simp [hm, wgAdd_out, wgAdd_mainPc]⟩
  · cases p2 <;> simp [worker, St.setPc, St.pc] at hu <;> obtain ⟨⟨hm, -⟩, rfl⟩ := hu <;>
      simp [hm] at hout <;> subst hout
    · exact ⟨out, by simpa [St.printedLines, St.hasPrinted, St.pc] using hperm, by simp [hm]⟩
    · refine ⟨out ++ [workerLine .w2], ?_, by simp [hm]⟩
      simp only [St.printedLines, St.hasPrinted, St.pc] at hperm ⊢
      simp at hperm ⊢
      exact perm_insert _ _ _ _ hperm
    · exact ⟨out, by simpa [St.printedLines, St.hasPrinted, St.pc, wgAdd_pc1, wgAdd_pc2,
        wgAdd_pc3] using hperm, by simp [hm, wgAdd_out, wgAdd_mainPc]⟩
  · cases p3 <;> simp [worker, St.setPc, St.pc] at hu <;> obtain ⟨⟨hm, -⟩, rfl⟩ := hu <;>
      simp [hm] at hout <;> subst hout
    · exact ⟨out, by simpa [St.printedLines, St.hasPrinted, St.pc] using hperm, by simp [hm]⟩
    · refine ⟨out ++ [workerLine .w3], ?_, by simp [hm]⟩
      simp only [St.printedLines, St.hasPrinted, St.pc] at hperm ⊢
      simp at hperm ⊢
      have hins := perm_insert out _ [] (workerLine .w3) (by simpa using hperm)
      simpa [List.append_assoc] using hins
    · exact ⟨out, by simpa [St.printedLines, St.hasPrinted, St.pc, wgAdd_pc1, wgAdd_pc2,
        wgAdd_pc3] using hperm, by simp [hm, wgAdd_out, wgAdd_mainPc]⟩

theorem inv_next (t : Tid) (s : St) (hc : CInv s) (ho : OInv s) :
    CInv (next t s) ∧ OInv (next t s) := by
  unfold next
  cases hstep : step t s with
  | none => exact ⟨hc, ho⟩
  | some u =>
    cases t with
    | main => exact ⟨cinv_main s u hc hstep, oinv_main s u hc ho hstep⟩
    | worker w => exact ⟨cinv_worker w s u hc hstep, oinv_worker w s u ho hstep⟩

theorem inv_run (sched : List Tid) :
    ∀ s : St, CInv s → OInv s → CInv (run sched s) ∧ OInv (run sched s) := by
  induction sched with
  | nil => intro s hc ho; exact ⟨hc, ho⟩
  | cons t rest ih =>
    intro s hc ho
    exact ih _ (inv_next t s hc ho).1 (inv_next t s hc ho).2

theorem finishedLine_not_printed (s : St) : finishedLine ∉ s.printedLines := by
  have h1 : finishedLine ≠ workerLine .w1 := by decide
  have h2 : finishedLine ≠ workerLine .w2 := by decide
  have h3 : finishedLine ≠ workerLine .w3 := by decide
  simp only [St.printedLines]
  split_ifs <;> simp [h1, h2, h3]

theorem step_fuel (t : Tid) (s u : St) (hc : CInv s) (hu : step t s = some u) :
    fuel u < fuel s := by
  rcases s with ⟨c, p, m, p1, p2, p3, out⟩
  obtain ⟨hp, -, h1, h2, h3, -⟩ := hc
  simp only at hp
  subst hp
  rcases t with _ | w
  · cases m <;> simp [step, main, St.setPc, MainPc.rank] at hu h1 h2 h3 <;>
      (first | subst hu | (obtain ⟨-, rfl⟩ := hu)) <;> (try subst h1) <;> (try subst h2) <;>
      (try subst h3) <;>
      simp [fuel, MainPc.rank, WorkerPc.left, wgAdd_mainPc, wgAdd_pc1, wgAdd_pc2, wgAdd_pc3]
  · cases w
    · cases p1 <;> simp [step, worker, St.setPc, St.pc] at hu <;> obtain ⟨-, rfl⟩ := hu <;>
        simp [fuel, MainPc.rank, WorkerPc.left, wgAdd_mainPc, wgAdd_pc1, wgAdd_pc2, wgAdd_pc3]
    · cases p2 <;> simp [step, worker, St.setPc, St.pc] at hu <;> obtain ⟨-, rfl⟩ := hu <;>
        simp [fuel, MainPc.rank, WorkerPc.left, wgAdd_mainPc, wgAdd_pc1, wgAdd_pc2, wgAdd_pc3]
    · cases p3 <;> simp [step, worker, St.setPc, St.pc] at hu <;> obtain ⟨-, rfl⟩ := hu <;>
        simp [fuel, MainPc.rank, WorkerPc.left, wgAdd_mainPc, wgAdd_pc1, wgAdd_pc2, wgAdd_pc3]

theorem worker_can_step (w : Wid) (s : St) (hp : s.panicked = false) (hm : s.mainPc ≠ .exited)
    (h0 : s.pc w ≠ .notStarted) (h1 : s.pc w ≠ .finished) : (step (.worker w) s).isSome = true := by
  simp only [step, worker, hp, hm]
  cases hpc : s.pc w <;> simp_all

theorem progress (s : St) (hc : CInv s) (hm : s.mainPc ≠ .exited) :
    ∃ t u, step t s = some u := by
  obtain ⟨hp, hcnt, h1, h2, h3, -⟩ := hc
  by_cases hmain : (step .main s).isSome = true
  · exact ⟨.main, Option.isSome_iff_exists.mp hmain⟩
  · have hw : s.mainPc = .atWait ∧ s.counter ≠ 0 := by
      revert hmain
      simp only [step, main, hp]
      cases hpc : s.mainPc <;> simp_all
    obtain ⟨hat, hne⟩ := hw
    simp only [hat, MainPc.rank] at h1 h2 h3
    simp only [St.doneCount, St.done, St.pc, hat] at hcnt
    have hsome : s.pc1 ≠ .finished ∨ s.pc2 ≠ .finished ∨ s.pc3 ≠ .finished := by
      by_contra hall
      simp only [not_or, not_not] at hall
      obtain ⟨a, b, c⟩ := hall
      simp [a, b, c] at hcnt
      exact hne hcnt
    rcases hsome with h | h | h
    · exact ⟨.worker .w1, Option.isSome_iff_exists.mp
        (worker_can_step .w1 s hp hm (h1.mpr (by omega)) h)⟩
    · exact ⟨.worker .w2, Option.isSome_iff_exists.mp
        (worker_can_step .w2 s hp hm (h2.mpr (by omega)) h)⟩
    · exact ⟨.worker .w3, Option.isSome_iff_exists.mp
        (worker_can_step .w3 s hp hm (h3.mpr (by omega)) h)⟩

end SyncWaitGroup

/-- C1: under every schedule of `main` and the three workers, `main` is past `wg.Wait()` only
when all three workers have called `wg.Done()`; when the line "All workers finished" is in the
output it is the last line and what precedes it is the three lines "Worker 1 is working",
"Worker 2 is working", "Worker 3 is working", each once, in some order; the line is in the output
once `main` has returned; and `main` does return: until then some goroutine can take a step, and
every step lowers a bound on the steps left. -/
theorem waitgroup_wait_after_all_done (sched : List SyncWaitGroup.Tid) :
    (((SyncWaitGroup.run sched SyncWaitGroup.init).mainPc = .waited ∨
        (SyncWaitGroup.run sched SyncWaitGroup.init).mainPc = .exited) →
      (SyncWaitGroup.run sched SyncWaitGroup.init).done .w1 = true ∧
      (SyncWaitGroup.run sched SyncWaitGroup.init).done .w2 = true ∧
      (SyncWaitGroup.run sched SyncWaitGroup.init).done .w3 = true) ∧
    (SyncWaitGroup.finishedLine ∈ (SyncWaitGroup.run sched SyncWaitGroup.init).out →
      ∃ pre : List String,
        (SyncWaitGroup.run sched SyncWaitGroup.init).out = pre ++ [SyncWaitGroup.finishedLine] ∧
        pre.Perm [SyncWaitGroup.workerLine .w1, SyncWaitGroup.workerLine .w2,
          SyncWaitGroup.workerLine .w3]) ∧
    ((SyncWaitGroup.run sched SyncWaitGroup.init).mainPc = .exited →
      SyncWaitGroup.finishedLine ∈ (SyncWaitGroup.run sched SyncWaitGroup.init).out) ∧
    ((SyncWaitGroup.run sched SyncWaitGroup.init).mainPc ≠ .exited →
      ∃ t u, SyncWaitGroup.step t (SyncWaitGroup.run sched SyncWaitGroup.init) = some u) ∧
    (∀ t u, SyncWaitGroup.step t (SyncWaitGroup.run sched SyncWaitGroup.init) = some u →
      SyncWaitGroup.fuel u < SyncWaitGroup.fuel (SyncWaitGroup.run sched SyncWaitGroup.init)) ∧
    [SyncWaitGroup.workerLine .w1, SyncWaitGroup.workerLine .w2, SyncWaitGroup.workerLine .w3,
      SyncWaitGroup.finishedLine] =
      ["Worker 1 is working\n", "Worker 2 is working\n", "Worker 3 is working\n",
        "All workers finished\n"] := by
  obtain ⟨hc, pre, hperm, hout⟩ :=
    SyncWaitGroup.inv_run sched _ SyncWaitGroup.cinv_init SyncWaitGroup.oinv_init
  have hprog := SyncWaitGroup.progress _ hc
  have hfuel := fun t u => SyncWaitGroup.step_fuel t _ u hc
  obtain ⟨-, -, -, -, -, h5⟩ := hc
  generalize SyncWaitGroup.run sched SyncWaitGroup.init = s at *
  have hall : 5 ≤ s.mainPc.rank → s.printedLines =
      [SyncWaitGroup.workerLine .w1, SyncWaitGroup.workerLine .w2,
        SyncWaitGroup.workerLine .w3] := by
    intro h
    obtain ⟨a, b, c⟩ := h5 h
    simp [SyncWaitGroup.St.printedLines, SyncWaitGroup.St.hasPrinted, SyncWaitGroup.St.pc,
      a, b, c]
  refine ⟨?_, ?_, ?_, hprog, hfuel, by decide⟩
  · intro h
    have h5r : 5 ≤ s.mainPc.rank := by
      rcases h with h | h <;> simp [h, SyncWaitGroup.MainPc.rank]
    obtain ⟨a, b, c⟩ := h5 h5r
    simp [SyncWaitGroup.St.done, SyncWaitGroup.St.pc, a, b, c]
  · intro hmem
    by_cases hm : s.mainPc = .exited
    · refine ⟨pre, by simpa [hm] using hout, ?_⟩
      rw [← hall (by simp [hm, SyncWaitGroup.MainPc.rank])]
      exact hperm
    · exfalso
      simp only [hm, if_false, List.append_nil] at hout
      rw [hout] at hmem
      exact SyncWaitGroup.finishedLine_not_printed s (hperm.mem_iff.mp hmem)
  · intro hm
    simp [hout, hm]

theorem waitgroup_wait_after_all_done_witness :
    ∃ pre : List String,
      (SyncWaitGroup.run SyncWaitGroup.sampleSchedule SyncWaitGroup.init).out =
        pre ++ [SyncWaitGroup.finishedLine] ∧
      pre.Perm [SyncWaitGroup.workerLine .w1, SyncWaitGroup.workerLine .w2,
        SyncWaitGroup.workerLine .w3] :=
  (waitgroup_wait_after_all_done SyncWaitGroup.sampleSchedule).2.1 (by decide)

/-- C2, as stated, fails: in the state the program starts in, before `wg.Add(3)`, the counter
is 0 and no worker has finished. -/
theorem waitgroup_counter_zero_at_start :
    (SyncWaitGroup.run [] SyncWaitGroup.init).counter = 0 ∧
    (SyncWaitGroup.run [] SyncWaitGroup.init).done .w1 = false ∧
    (SyncWaitGroup.run [] SyncWaitGroup.init).done .w2 = false ∧
    (SyncWaitGroup.run [] SyncWaitGroup.init).done .w3 = false ∧
    ¬((SyncWaitGroup.run [] SyncWaitGroup.init).counter = 0 ↔
      ((SyncWaitGroup.run [] SyncWaitGroup.init).done .w1 = true ∧
       (SyncWaitGroup.run [] SyncWaitGroup.init).done .w2 = true ∧
       (SyncWaitGroup.run [] SyncWaitGroup.init).done .w3 = true)) := by
  decide

/-- C2, amended: under every schedule the program does not panic and the counter stays in 0..3;
it is 0 before `wg.Add(3)`, when no worker is started yet, and from `wg.Add(3)` on it is 3 minus
the number of workers that have called `wg.Done()`, so that from then on it is 0 exactly when all
three workers have finished. -/
theorem waitgroup_counter_bounds (sched : List SyncWaitGroup.Tid) :
    (SyncWaitGroup.run sched SyncWaitGroup.init).panicked = false ∧
    0 ≤ (SyncWaitGroup.run sched SyncWaitGroup.init).counter ∧
    (SyncWaitGroup.run sched SyncWaitGroup.init).counter ≤ 3 ∧
    ((SyncWaitGroup.run sched SyncWaitGroup.init).mainPc = .start →
      (SyncWaitGroup.run sched SyncWaitGroup.init).counter = 0 ∧
      (SyncWaitGroup.run sched SyncWaitGroup.init).pc1 = .notStarted ∧
      (SyncWaitGroup.run sched SyncWaitGroup.init).pc2 = .notStarted ∧
      (SyncWaitGroup.run sched SyncWaitGroup.init).pc3 = .notStarted) ∧
    ((SyncWaitGroup.run sched SyncWaitGroup.init).mainPc ≠ .start →
      (SyncWaitGroup.run sched SyncWaitGroup.init).counter =
        3 - (SyncWaitGroup.run sched SyncWaitGroup.init).doneCount ∧
      ((SyncWaitGroup.run sched SyncWaitGroup.init).counter = 0 ↔
        ((SyncWaitGroup.run sched SyncWaitGroup.init).done .w1 = true ∧
         (SyncWaitGroup.run sched SyncWaitGroup.init).done .w2 = true ∧
         (SyncWaitGroup.run sched SyncWaitGroup.init).done .w3 = true))) := by
  obtain ⟨hc, -⟩ :=
    SyncWaitGroup.inv_run sched _ SyncWaitGroup.cinv_init SyncWaitGroup.oinv_init
  generalize SyncWaitGroup.run sched SyncWaitGroup.init = s at *
  rcases s with ⟨c, p, m, p1, p2, p3, out⟩
  obtain ⟨hp, hcnt, h1, h2, h3, -⟩ := hc
  simp only [SyncWaitGroup.St.doneCount, SyncWaitGroup.St.done, SyncWaitGroup.St.pc,
    decide_eq_true_eq] at hp hcnt h1 h2 h3 ⊢
  subst hp
  cases m <;> simp [SyncWaitGroup.MainPc.rank] at hcnt h1 h2 h3 ⊢ <;>
    (try subst h1) <;> (try subst h2) <;> (try subst h3) <;> (try simp at hcnt ⊢) <;>
    subst hcnt <;> (try split_ifs) <;> (try simp_all)

theorem waitgroup_counter_bounds_witness :
    (SyncWaitGroup.run SyncWaitGroup.sampleSchedule SyncWaitGroup.init).counter = 0 ∧
    ((SyncWaitGroup.run SyncWaitGroup.sampleSchedule SyncWaitGroup.init).done .w1 = true ∧
     (SyncWaitGroup.run SyncWaitGroup.sampleSchedule SyncWaitGroup.init).done .w2 = true ∧
     (SyncWaitGroup.run SyncWaitGroup.sampleSchedule SyncWaitGroup.init).done .w3 = true) :=
  ⟨by decide,
   ((waitgroup_counter_bounds SyncWaitGroup.sampleSchedule).2.2.2.2 (by decide)).2.mp
     (by decide)⟩
